import Mathlib

/-!
# Verification of the ProducerConsumer simulation (assignment1)

Shallow embedding of `ProducerConsumer/models.py` and
`ProducerConsumer/core.py` together with proofs about the claims of the
specification.

Modelling conventions:
* Python `int` values flowing into the constructor are modelled by `PyVal`
  (so the `isinstance(..., int)` checks are expressible); everywhere else the
  integers of interest are the item ids `1..n` and sequence numbers, which the
  program keeps non-negative, so they are modelled as `Nat`.
* A Python exception is a `PyError` value; a function that can raise returns
  `Except PyError _`.
* `queue.Queue` entries are `Option WorkItem`: `core.py` sets
  `STOP_SIGNAL = None`, so the sentinel is `none` and a real item is `some w`.
* Threads are modelled by explicit state passing; where interleaving matters
  (the consumer/sentinel phase) a schedule-indexed small-step interpreter is
  used, see `SentinelPhase` below.
-/

/-- A Python exception class, as far as the embedded code can raise one. -/
inductive PyError where
  | typeError
  | valueError
  | attributeError
deriving DecidableEq, Repr

/-- A Python value handed to `SimulationManager.__init__`; only the
distinction "is an `int` (and which one)" versus "is something else" matters
to the validation code. -/
inductive PyVal where
  | int (n : Int)
  | str (s : String)
  | noneV
deriving DecidableEq, Repr

/-- Model of `isinstance(v, int)` for the modelled values. -/
def PyVal.isInt : PyVal → Bool
  | .int _ => true
  | _ => false

/-- The integer carried by a `PyVal.int`; unused on other constructors. -/
def PyVal.toInt : PyVal → Int
  | .int n => n
  | _ => 0

/-- From `models.py` line 5-21: `@dataclass(frozen=True) class WorkItem` with the
single field `item_id`.  (The class body declares no `sequence_number`
field.)  `frozen=True` makes it immutable and the generated `__eq__`
compares the declared fields, i.e. `item_id` only; both are captured by a
Lean structure with decidable equality. -/
structure WorkItem where
  item_id : Nat
deriving DecidableEq, Repr

/-- The fields the `@dataclass` decorator generates an `__init__` parameter
for, in declaration order: `models.py` declares exactly `item_id`. -/
def WorkItem.fieldNames : List String := ["item_id"]

/-- The dataclass-generated `WorkItem.__init__`, applied to positional
arguments `pos` and keyword arguments `kw` (Python call semantics:
positional arguments bind the declared fields in order; a keyword argument
must name a field that is not already bound, otherwise `TypeError`; a missing
field is a `TypeError`). -/
def WorkItem.pyInit (pos : List Nat) (kw : List (String × Nat)) :
    Except PyError WorkItem :=
  if WorkItem.fieldNames.length < pos.length then .error .typeError
  else if kw.any (fun p => ¬ (WorkItem.fieldNames.drop pos.length).contains p.1) then
    .error .typeError
  else
    match pos with
    | v :: _ => .ok ⟨v⟩
    | [] =>
      match kw.lookup "item_id" with
      | some v => .ok ⟨v⟩
      | none => .error .typeError

/-- From `models.py` lines 19-21: `__repr__` returns the id-only representation
(the format string interpolates `self.item_id` after the text `WorkItem(id=`). -/
def WorkItem.pyRepr (w : WorkItem) : String :=
  "WorkItem(id=" ++ toString w.item_id ++ ")"

/-- Setting a field on a frozen dataclass instance raises (Python:
`FrozenInstanceError`, a subclass of `AttributeError`); `frozen=True` means
there is no mutation, so the model of `item.item_id = v` is the unchanged
object together with the raised error. -/
def WorkItem.pySetItemId (w : WorkItem) (_v : Nat) : WorkItem × PyError :=
  (w, .attributeError)

/-- One shared-counter allocation, `core.py` lines 61-63: inside the lock the
producer reads `sequence_value[0]` and increments it.  Input: counter value;
output: the allocated number and the new counter value. -/
def seqAlloc (v : Nat) : Nat × Nat := (v, v + 1)

/-- The allocation `seqAlloc` iterated `k` times from counter value `v`: the list of values
handed out, and the final counter. -/
def seqAllocList : Nat → Nat → List Nat × Nat
  | 0, v => ([], v)
  | k + 1, v =>
    let (xs, v') := seqAllocList k (v + 1)
    (v :: xs, v')

/-- Model of `Producer.run` (`core.py` lines 44-86), with the shared counter
threaded through explicitly.

* `hasCounter` is the truth value of `self.sequence_counter and
  self.sequence_value` (line 60): `True` when the manager wired both in,
  `False` when a directly constructed producer left them as `None`.
* For each `item_id` of `source_ids` in order: allocate `seq_num` (either
  from the counter, or the line-65 fallback `seq_num = 0`), then evaluate
  `WorkItem(item_id, sequence_number=seq_num)` (line 68).  That call raises
  (see `WorkItem.pyInit`: `sequence_number` is not a field of `WorkItem`),
  which unwinds `run()` — the loop stops and nothing more is put.
* Result: final counter value, list of items actually `put` into the queue
  (in order), and the exception that ended the thread, if any. -/
def Producer.runModel (hasCounter : Bool) :
    List Nat → Nat → Nat × List WorkItem × Option PyError
  | [], v => (v, [], none)
  | item_id :: rest, v =>
    let (seq_num, v') := if hasCounter then seqAlloc v else (0, v)
    match WorkItem.pyInit [item_id] [("sequence_number", seq_num)] with
    | .error e => (v', [], some e)
    | .ok item =>
      let (v'', puts, err) := Producer.runModel hasCounter rest v'
      (v'', item :: puts, err)

/-- Python list slicing `l[start : start + size]` for successive sizes: each
chunk takes `size` elements and the remainder of the list is passed on. -/
def takeSlices {α : Type} : List α → List Nat → List (List α)
  | _, [] => []
  | l, s :: ss => l.take s :: takeSlices (l.drop s) ss

/-- The chunk sizes of `SimulationManager._distribute_items` (`core.py`
lines 203-210): `chunk_size = items // producers`,
`remainder = items % producers`, and producer `i` receives
`chunk_size + (1 if i < remainder else 0)` items. -/
def chunkSizes (items producers : Nat) : List Nat :=
  (List.range producers).map
    (fun i => items / producers + if i < items % producers then 1 else 0)

/-- Model of `SimulationManager._distribute_items` (`core.py` lines 192-214):
`source_data = list(range(1, number_of_items + 1))` sliced into the
successive chunks `source_data[start : start + size]`. -/
def distributeItems (number_of_items num_producers : Nat) : List (List Nat) :=
  takeSlices (List.range' 1 number_of_items) (chunkSizes number_of_items num_producers)

/-- The state of a `SimulationManager` (`core.py` lines 176-190).  The
`queue.Queue` instance is represented by its capacity (a construction
parameter kept in `queue_capacity`) and its current contents
(`queueItems`); `sequence_value` is the contents of the single-element
list `self.sequence_value`. -/
structure SimulationManager where
  number_of_items : Nat
  queue_capacity : Nat
  num_producers : Nat
  num_consumers : Nat
  source_data_chunks : List (List Nat)
  sequence_value : Nat
  queueItems : List (Option WorkItem)
  destination_data : List WorkItem
deriving DecidableEq, Repr

/-- The validation error raised by `SimulationManager.__init__`: which Python
exception class, and the offending parameter name. -/
inductive ConfigError where
  | typeError (param : String)
  | valueError (param : String)
deriving DecidableEq, Repr

/-- Model of `SimulationManager.__init__` (`core.py` lines 156-190): the four
`isinstance(..., int)` checks in order, then the four `<= 0` range checks in
order; only if all pass is any state created (the partition plan, the shared
counter at 0, an empty queue of the requested capacity, an empty result
list). -/
def SimulationManager.pyInit (ni qc np nc : PyVal) :
    Except ConfigError SimulationManager :=
  if ¬ ni.isInt then .error (.typeError "number_of_items")
  else if ¬ qc.isInt then .error (.typeError "queue_capacity")
  else if ¬ np.isInt then .error (.typeError "num_producers")
  else if ¬ nc.isInt then .error (.typeError "num_consumers")
  else if ni.toInt ≤ 0 then .error (.valueError "number_of_items")
  else if qc.toInt ≤ 0 then .error (.valueError "queue_capacity")
  else if np.toInt ≤ 0 then .error (.valueError "num_producers")
  else if nc.toInt ≤ 0 then .error (.valueError "num_consumers")
  else
    .ok { number_of_items := ni.toInt.toNat
          queue_capacity := qc.toInt.toNat
          num_producers := np.toInt.toNat
          num_consumers := nc.toInt.toNat
          source_data_chunks := distributeItems ni.toInt.toNat np.toInt.toNat
          sequence_value := 0
          queueItems := []
          destination_data := [] }

/-- Phase 3 of `run()`: execute every producer (each over its chunk, all with
the shared counter wired in), threading the shared counter through.  The
interleaving of the producers' counter accesses does not affect this model's
observables: every producer faults on its first `WorkItem` construction
(before any `put`), so each performs at most one allocation and puts
nothing; we fold them in index order.  Returns the final counter value, the
concatenation of all items put, and each producer's terminating fault. -/
def runProducers : List (List Nat) → Nat → Nat × List WorkItem × List (Option PyError)
  | [], v => (v, [], [])
  | chunk :: rest, v =>
    let (v', puts, err) := Producer.runModel true chunk v
    let (v'', puts', errs) := runProducers rest v'
    (v'', puts ++ puts', err :: errs)

/-- The sort `all_results.sort(key=lambda item: item.sequence_number)` (`core.py`
line 293): the key function accesses `item.sequence_number`, an attribute
`WorkItem` does not have (`models.py` declares only `item_id`), so on a
non-empty list Python's sort raises `AttributeError` at the first key call;
on the empty list the key is never evaluated and the sort is a no-op. -/
def sortBySequenceNumber (l : List WorkItem) : Except PyError (List WorkItem) :=
  match l with
  | [] => .ok []
  | _ :: _ => .error .attributeError

/-- Model of `SimulationManager.run` (`core.py` lines 216-297) as a state
transformer returning the new manager state and the call's outcome.

* Lines 229-231 (reset): `sequence_value[0] = 0`,
  `destination_data.clear()`, fresh `queue.Queue(maxsize=queue_capacity)`.
* Phases 1-3: producers are created over `source_data_chunks`, started and
  joined.  A producer thread that raises is terminated by the Python thread
  machinery (the exception is printed by the default excepthook and
  discarded); `join()` returns normally and `run()` never inspects it, so
  the per-producer faults are dropped here.
* Phases 4-5: `num_consumers` sentinels are enqueued and the consumers
  drain them (verified against all interleavings in `SentinelPhase` below);
  every real item that was put is consumed into some consumer's private
  buffer, so the concatenation of the buffers is exactly `puts`.
* Phase 6: the concatenation is sorted by the (missing) `sequence_number`
  attribute and stored in `destination_data`.  An exception here would be
  raised in the manager thread, i.e. to the caller of `run()`. -/
def SimulationManager.run (m : SimulationManager) :
    SimulationManager × Except PyError (List WorkItem) :=
  let (v', puts, _errs) := runProducers m.source_data_chunks 0
  match sortBySequenceNumber puts with
  | .error e =>
    ({ m with sequence_value := v', queueItems := [], destination_data := [] }, .error e)
  | .ok sorted =>
    ({ m with sequence_value := v', queueItems := [], destination_data := sorted },
      .ok sorted)

/-!
## The sentinel/consumer phase as a small-step system

Phases 4-5 of `SimulationManager.run` interleave three kinds of threads:
the manager thread putting `num_consumers` sentinels (`core.py` lines
276-277, blocking while the queue is full), and the consumer threads
(`Consumer.run`, lines 110-151).  Since every producer faults before its
first `put` (see `Producer.runModel`), by the time the sentinels are
enqueued the queue is empty and no real item is in flight; the whole queue
traffic of a run is this phase.  We model it as a schedule-indexed
small-step interpreter and prove its properties over *all* schedules.

A consumer's loop iteration has two scheduling-relevant points: the
blocking `get()` (line 127) and the later `qsize()` sample (line 129) —
they are not atomic together, other threads may run in between.  So a
consumer is `waiting` (at the `get`), `sampling e` (between `get` and
`qsize`, holding entry `e`), or `done` (after breaking on the sentinel).
`sentCount` is a ghost counter of sentinels this consumer has removed from
the queue.
-/

namespace SentinelPhase

/-- Kind of an instrumentation event (`produced` / `consumed` /
`terminated` log lines). -/
inductive EventKind where
  | produced
  | consumed
  | terminated
deriving DecidableEq, Repr

/-- One instrumentation event: the kind and the `Buffer: before -> after`
snapshot it reports. -/
structure Event where
  kind : EventKind
  before : Nat
  after : Nat
deriving DecidableEq, Repr

/-- Position of one consumer thread in `Consumer.run`'s loop. -/
inductive Mode where
  | waiting
  | sampling (e : Option WorkItem)
  | done
deriving DecidableEq, Repr

/-- One consumer thread: loop position, private buffer
(`local_destination`), and the ghost count of sentinels it has taken. -/
structure Cons where
  mode : Mode
  buffer : List WorkItem
  sentCount : Nat
deriving DecidableEq, Repr

/-- Global state of the phase: queue contents (entries are
`Option WorkItem`, `none` the sentinel), capacity, sentinels the manager
still has to put, the consumers, and the events emitted so far. -/
structure St where
  capacity : Nat
  queue : List (Option WorkItem)
  sentinelsLeft : Nat
  consumers : List Cons
  events : List Event
deriving DecidableEq, Repr

/-- A scheduling decision: which thread takes its next step. -/
inductive Label where
  | mgrPut
  | consGet (i : Nat)
  | consSample (i : Nat)
deriving DecidableEq, Repr

/-- Initial state: empty fresh queue, `n_c` sentinels still to put, `n_c`
consumers at the top of their loop with empty buffers. -/
def init (cap nc : Nat) : St :=
  { capacity := cap
    queue := []
    sentinelsLeft := nc
    consumers := List.replicate nc ⟨.waiting, [], 0⟩
    events := [] }

/-- One scheduled step.  A label whose thread is not ready (blocked `put` on
a full queue, blocked `get` on an empty queue, wrong loop position, bad
index) leaves the state unchanged — the thread simply stays where it is.

* `mgrPut`: one iteration of `core.py` lines 276-277, `queue.put(STOP_SIGNAL)`,
  which proceeds only while the queue is below capacity.
* `consGet i`: line 127, `item = self.shared_queue.get()` — removes the
  oldest entry.
* `consSample i`: lines 129-147 — read `qsize()`, derive
  `buffer_before = buffer_after + 1`, then either log the `terminated`
  event and break (sentinel) or append to the private buffer and log the
  `consumed` event. -/
def step (s : St) : Label → St
  | .mgrPut =>
    if 0 < s.sentinelsLeft ∧ s.queue.length < s.capacity then
      { s with queue := s.queue ++ [none], sentinelsLeft := s.sentinelsLeft - 1 }
    else s
  | .consGet i =>
    match s.consumers.get? i, s.queue with
    | some c, e :: rest =>
      match c.mode with
      | .waiting =>
        { s with
          queue := rest
          consumers := s.consumers.set i
            { c with mode := .sampling e
                     sentCount := c.sentCount + (if e = none then 1 else 0) } }
      | _ => s
    | _, _ => s
  | .consSample i =>
    match s.consumers.get? i with
    | some c =>
      match c.mode with
      | .sampling e =>
        let ev : Event :=
          { kind := if e = none then .terminated else .consumed
            before := s.queue.length + 1
            after := s.queue.length }
        match e with
        | none =>
          { s with events := s.events ++ [ev]
                   consumers := s.consumers.set i { c with mode := .done } }
        | some w =>
          { s with events := s.events ++ [ev]
                   consumers := s.consumers.set i
                     { c with mode := .waiting, buffer := c.buffer ++ [w] } }
      | _ => s
    | none => s

/-- Run a whole schedule. -/
def exec (s : St) (sched : List Label) : St := sched.foldl step s

/-- The state of the sentinel phase of one `run()` call after the
interleaving `sched`, for a manager with queue capacity `cap` and `nc`
consumers. -/
def runPhase (cap nc : Nat) (sched : List Label) : St :=
  exec (init cap nc) sched

/-- The phase is finished: every sentinel has been put and every consumer
has exited its loop. -/
def Final (s : St) : Prop :=
  s.sentinelsLeft = 0 ∧ ∀ c ∈ s.consumers, c.mode = Mode.done

instance (s : St) : Decidable (Final s) := by
  unfold Final; infer_instance

/-- Total sentinels removed from the queue by the consumers. -/
def sentTotal (s : St) : Nat := (s.consumers.map Cons.sentCount).sum

/-- Per-consumer invariant: the buffer stays empty (no real item ever
enters the queue in this run) and the loop position determines how many
sentinels were taken. -/
def ConsInv (c : Cons) : Prop :=
  c.buffer = [] ∧
  match c.mode with
  | .waiting => c.sentCount = 0
  | .sampling e => e = none ∧ c.sentCount = 1
  | .done => c.sentCount = 1

/-- Global invariant of the phase for parameters `cap`, `nc`. -/
def Inv (cap nc : Nat) (s : St) : Prop :=
  s.capacity = cap ∧
  s.queue.length ≤ cap ∧
  (∀ e ∈ s.queue, e = none) ∧
  s.consumers.length = nc ∧
  (∀ c ∈ s.consumers, ConsInv c) ∧
  nc = s.sentinelsLeft + s.queue.length + sentTotal s ∧
  (∀ ev ∈ s.events, ev.after ≤ cap ∧ ev.before = ev.after + 1 ∧
    ev.kind ≠ EventKind.produced)

theorem inv_init (cap nc : Nat) : Inv cap nc (init cap nc) := by
  refine ⟨rfl, by simp [init], by simp [init], by simp [init], ?_, ?_, by simp [init]⟩
  · intro c hc
    simp only [init, List.mem_replicate] at hc
    rw [hc.2]
    exact ⟨rfl, rfl⟩
  · simp [init, sentTotal, List.map_replicate]


theorem sum_sentCount_set (l : List Cons) (i : Nat) (c c' : Cons)
    (h : l.get? i = some c) :
    ((l.set i c').map Cons.sentCount).sum + c.sentCount
      = (l.map Cons.sentCount).sum + c'.sentCount := by
  induction l generalizing i with
  | nil => simp at h
  | cons hd tl ih =>
    cases i with
    | zero =>
      simp only [List.get?] at h
      injection h with h
      subst h
      simp only [List.set, List.map_cons, List.sum_cons]
      omega
    | succ n =>
      simp only [List.get?] at h
      have := ih n h
      simp only [List.set, List.map_cons, List.sum_cons]
      omega

theorem inv_step (cap nc : Nat) (s : St) (l : Label) (h : Inv cap nc s) :
    Inv cap nc (step s l) := by
  obtain ⟨hcap, hqlen, hqnone, hclen, hcinv, hcnt, hev⟩ := h
  cases l with
  | mgrPut =>
    by_cases hc : 0 < s.sentinelsLeft ∧ s.queue.length < s.capacity
    · simp only [step, if_pos hc]
      refine ⟨?_, ?_, ?_, ?_, ?_, ?_, ?_⟩ <;> dsimp only
      · exact hcap
      · simp only [List.length_append, List.length_cons, List.length_nil]
        omega
      · intro e he
        rcases List.mem_append.mp he with h1 | h1
        · exact hqnone e h1
        · simpa using h1
      · exact hclen
      · exact hcinv
      · simp only [sentTotal, List.length_append, List.length_cons, List.length_nil]
        simp only [sentTotal] at hcnt
        omega
      · exact hev
    · simp only [step, if_neg hc]
      exact ⟨hcap, hqlen, hqnone, hclen, hcinv, hcnt, hev⟩
  | consGet i =>
    rcases hg : s.consumers.get? i with _ | c
    · simp only [step, hg]
      exact ⟨hcap, hqlen, hqnone, hclen, hcinv, hcnt, hev⟩
    · rcases hq : s.queue with _ | ⟨e, rest⟩
      · simp only [step, hg, hq]
        exact ⟨hcap, hqlen, hqnone, hclen, hcinv, hcnt, hev⟩
      · have hcm : c ∈ s.consumers := List.get?_mem hg
        have hci := hcinv c hcm
        have he : e = none := hqnone e (by rw [hq]; exact List.mem_cons_self e rest)
        rcases hm : c.mode with _ | e' | _
        · -- waiting: the get proceeds
          subst he
          have hsc : c.sentCount = 0 := by
            have h2 := hci.2
            rw [hm] at h2
            exact h2
          rw [hq] at hqlen
          simp only [List.length_cons] at hqlen
          have hsum := sum_sentCount_set s.consumers i c
            { c with mode := .sampling none, sentCount := c.sentCount + 1 } hg
          dsimp only at hsum
          simp only [step, hg, hq, hm, reduceIte]
          refine ⟨?_, ?_, ?_, ?_, ?_, ?_, ?_⟩ <;> dsimp only
          · exact hcap
          · omega
          · intro x hx
            exact hqnone x (by rw [hq]; exact List.mem_cons_of_mem _ hx)
          · rw [List.length_set]
            exact hclen
          · intro x hx
            rcases List.mem_or_eq_of_mem_set hx with h1 | h1
            · exact hcinv x h1
            · subst h1
              refine ⟨hci.1, rfl, ?_⟩
              dsimp only
              omega
          · simp only [sentTotal] at hcnt ⊢
            rw [hq] at hcnt
            simp only [List.length_cons] at hcnt
            omega
          · exact hev
        · simp only [step, hg, hq, hm]
          exact ⟨hcap, hqlen, hqnone, hclen, hcinv, hcnt, hev⟩
        · simp only [step, hg, hq, hm]
          exact ⟨hcap, hqlen, hqnone, hclen, hcinv, hcnt, hev⟩
  | consSample i =>
    rcases hg : s.consumers.get? i with _ | c
    · simp only [step, hg]
      exact ⟨hcap, hqlen, hqnone, hclen, hcinv, hcnt, hev⟩
    · have hcm : c ∈ s.consumers := List.get?_mem hg
      have hci := hcinv c hcm
      rcases hm : c.mode with _ | e | _
      · simp only [step, hg, hm]
        exact ⟨hcap, hqlen, hqnone, hclen, hcinv, hcnt, hev⟩
      · -- sampling e: by the invariant e = none, the consumer terminates
        have hce : e = none ∧ c.sentCount = 1 := by
          have h2 := hci.2
          rw [hm] at h2
          exact h2
        rcases hce with ⟨he, hsc⟩
        subst he
        have hsum := sum_sentCount_set s.consumers i c { c with mode := .done } hg
        dsimp only at hsum
        simp only [step, hg, hm, reduceIte]
        refine ⟨?_, ?_, ?_, ?_, ?_, ?_, ?_⟩ <;> dsimp only
        · exact hcap
        · exact hqlen
        · exact hqnone
        · rw [List.length_set]
          exact hclen
        · intro x hx
          rcases List.mem_or_eq_of_mem_set hx with h1 | h1
          · exact hcinv x h1
          · subst h1
            exact ⟨hci.1, hsc⟩
        · simp only [sentTotal] at hcnt ⊢
          omega
        · intro ev hevm
          rcases List.mem_append.mp hevm with h1 | h1
          · exact hev ev h1
          · simp only [List.mem_cons, List.not_mem_nil, or_false] at h1
            subst h1
            refine ⟨hqlen, rfl, by simp⟩
      · simp only [step, hg, hm]
        exact ⟨hcap, hqlen, hqnone, hclen, hcinv, hcnt, hev⟩

theorem inv_exec (cap nc : Nat) (sched : List Label) :
    Inv cap nc (exec (init cap nc) sched) := by
  suffices h : ∀ s, Inv cap nc s → Inv cap nc (exec s sched) from
    h _ (inv_init cap nc)
  induction sched with
  | nil => intro s hs; exact hs
  | cons l rest ih =>
    intro s hs
    exact ih _ (inv_step cap nc s l hs)

theorem sentCount_sum_le (l : List Cons) (h : ∀ c ∈ l, c.sentCount ≤ 1) :
    (l.map Cons.sentCount).sum ≤ l.length := by
  induction l with
  | nil => simp
  | cons hd tl ih =>
    simp only [List.map_cons, List.sum_cons, List.length_cons]
    have h1 := h hd (List.mem_cons_self hd tl)
    have h2 := ih (fun c hc => h c (List.mem_cons_of_mem hd hc))
    omega

theorem sentCount_all_one (l : List Cons) (h : ∀ c ∈ l, c.sentCount ≤ 1)
    (hs : (l.map Cons.sentCount).sum = l.length) : ∀ c ∈ l, c.sentCount = 1 := by
  induction l with
  | nil => intro c hc; simp at hc
  | cons hd tl ih =>
    simp only [List.map_cons, List.sum_cons, List.length_cons] at hs
    have h1 := h hd (List.mem_cons_self hd tl)
    have h2 := sentCount_sum_le tl (fun c hc => h c (List.mem_cons_of_mem hd hc))
    intro c hc
    rcases List.mem_cons.mp hc with h3 | h3
    · subst h3; omega
    · exact ih (fun x hx => h x (List.mem_cons_of_mem hd hx))
        (by omega) c h3

theorem sentCount_sum_of_all_one (l : List Cons)
    (h : ∀ c ∈ l, c.sentCount = 1) : (l.map Cons.sentCount).sum = l.length := by
  induction l with
  | nil => simp
  | cons hd tl ih =>
    simp only [List.map_cons, List.sum_cons, List.length_cons]
    rw [h hd (List.mem_cons_self hd tl),
      ih (fun c hc => h c (List.mem_cons_of_mem hd hc))]
    omega

theorem consInv_sentCount_le (c : Cons) (h : ConsInv c) : c.sentCount ≤ 1 := by
  obtain ⟨-, h2⟩ := h
  rcases hm : c.mode with _ | e | _ <;> rw [hm] at h2
  · omega
  · omega
  · omega

/-- Deadlock freedom: in any reachable state of the sentinel phase that is
not final, some thread can take a step that changes the state (so no thread
waits forever; with every step decreasing the remaining work, every fair
execution reaches the final state). -/
theorem progress (cap nc : Nat) (s : St) (hcap : 0 < cap)
    (hinv : Inv cap nc s) (hnf : ¬ Final s) : ∃ l, step s l ≠ s := by
  obtain ⟨hc, hqlen, hqnone, hclen, hcinv, hcnt, hev⟩ := hinv
  by_cases hsamp : ∃ i c, s.consumers.get? i = some c ∧ c.mode = Mode.sampling none
  · obtain ⟨i, c, hg, hm⟩ := hsamp
    refine ⟨.consSample i, ?_⟩
    simp only [step, hg, hm]
    intro heq
    have h2 := congrArg St.events heq
    dsimp only at h2
    have h3 := congrArg List.length h2
    simp only [List.length_append, List.length_cons, List.length_nil] at h3
    omega
  · have hmode : ∀ c ∈ s.consumers, c.mode = Mode.waiting ∨ c.mode = Mode.done := by
      intro c hcm
      rcases hm : c.mode with _ | e | _
      · exact Or.inl rfl
      · exfalso
        have h2 := (hcinv c hcm).2
        rw [hm] at h2
        obtain ⟨i, hg⟩ := List.mem_iff_get?.mp hcm
        exact hsamp ⟨i, c, hg, by rw [hm, h2.1]⟩
      · exact Or.inr rfl
    rcases hq : s.queue with _ | ⟨e, rest⟩
    · rcases Nat.eq_zero_or_pos s.sentinelsLeft with hsl | hsl
      · -- queue empty and no sentinel left: the state is final after all
        exfalso
        apply hnf
        refine ⟨hsl, ?_⟩
        have hsum : (s.consumers.map Cons.sentCount).sum = s.consumers.length := by
          simp only [sentTotal] at hcnt
          rw [hq] at hcnt
          simp only [List.length_nil] at hcnt
          omega
        have hone := sentCount_all_one s.consumers
          (fun c hcm => consInv_sentCount_le c (hcinv c hcm)) hsum
        intro c hcm
        rcases hmode c hcm with h1 | h1
        · exfalso
          have h2 := (hcinv c hcm).2
          rw [h1] at h2
          have h3 := hone c hcm
          omega
        · exact h1
      · refine ⟨.mgrPut, ?_⟩
        have hgd : 0 < s.sentinelsLeft ∧ s.queue.length < s.capacity := by
          refine ⟨hsl, ?_⟩
          rw [hq, hc]
          simpa using hcap
        simp only [step, if_pos hgd]
        intro heq
        have h2 := congrArg (fun t => t.queue.length) heq
        dsimp only at h2
        simp only [List.length_append, List.length_cons, List.length_nil] at h2
        omega
    · by_cases hw : ∃ i c, s.consumers.get? i = some c ∧ c.mode = Mode.waiting
      · obtain ⟨i, c, hg, hm⟩ := hw
        refine ⟨.consGet i, ?_⟩
        simp only [step, hg, hq, hm]
        intro heq
        have h2 := congrArg (fun t => t.queue.length) heq
        dsimp only at h2
        rw [hq] at h2
        simp only [List.length_cons] at h2
        omega
      · exfalso
        have hall : ∀ c ∈ s.consumers, c.sentCount = 1 := by
          intro c hcm
          rcases hmode c hcm with h1 | h1
          · exfalso
            obtain ⟨i, hg⟩ := List.mem_iff_get?.mp hcm
            exact hw ⟨i, c, hg, h1⟩
          · have h2 := (hcinv c hcm).2
            rw [h1] at h2
            exact h2
        have hsum := sentCount_sum_of_all_one s.consumers hall
        simp only [sentTotal] at hcnt
        rw [hq] at hcnt
        simp only [List.length_cons] at hcnt
        omega

end SentinelPhase

/-! ## Properties of the partition plan and of the producer/run models -/

theorem takeSlices_flatten {α : Type} (sizes : List Nat) (l : List α) :
    (takeSlices l sizes).flatten = l.take sizes.sum := by
  induction sizes generalizing l with
  | nil => simp [takeSlices]
  | cons s ss ih =>
    simp only [takeSlices, List.flatten_cons, List.sum_cons, ih]
    rw [List.take_add]

theorem takeSlices_lengths {α : Type} (sizes : List Nat) (l : List α)
    (h : sizes.sum ≤ l.length) :
    (takeSlices l sizes).map List.length = sizes := by
  induction sizes generalizing l with
  | nil => simp [takeSlices]
  | cons s ss ih =>
    simp only [List.sum_cons] at h
    simp only [takeSlices, List.map_cons]
    rw [List.length_take, ih (l.drop s) (by rw [List.length_drop]; omega)]
    congr 1
    omega

theorem sum_range_chunk (q r : Nat) (p : Nat) :
    ((List.range p).map (fun i => q + if i < r then 1 else 0)).sum
      = p * q + min r p := by
  induction p with
  | zero => simp
  | succ p ih =>
    rw [List.range_succ, List.map_append, List.sum_append, ih]
    simp only [List.map_cons, List.map_nil, List.sum_cons, List.sum_nil]
    rw [Nat.succ_mul]
    split <;> omega

theorem chunkSizes_sum (n p : Nat) (hp : 0 < p) : (chunkSizes n p).sum = n := by
  unfold chunkSizes
  rw [sum_range_chunk]
  have h1 : min (n % p) p = n % p := by
    have := Nat.mod_lt n hp
    omega
  rw [h1]
  exact Nat.div_add_mod n p

theorem distributeItems_flatten (n p : Nat) (hp : 0 < p) :
    (distributeItems n p).flatten = List.range' 1 n := by
  unfold distributeItems
  rw [takeSlices_flatten, chunkSizes_sum n p hp]
  exact List.take_of_length_le (by simp)

theorem distributeItems_lengths (n p : Nat) (hp : 0 < p) :
    (distributeItems n p).map List.length = chunkSizes n p := by
  unfold distributeItems
  exact takeSlices_lengths _ _ (by rw [chunkSizes_sum n p hp]; simp)

theorem distributeItems_count (n p : Nat) (hp : 0 < p) :
    (distributeItems n p).length = p := by
  have h := distributeItems_lengths n p hp
  have h2 := congrArg List.length h
  simpa [chunkSizes] using h2

theorem chunkSizes_pos (n p : Nat) (hpn : p ≤ n) (hp : 0 < p) :
    ∀ s ∈ chunkSizes n p, 0 < s := by
  intro s hs
  simp only [chunkSizes, List.mem_map, List.mem_range] at hs
  obtain ⟨i, -, hi⟩ := hs
  have h1 : 1 ≤ n / p := (Nat.one_le_div_iff hp).mpr hpn
  subst hi
  split <;> omega

theorem distributeItems_nonempty (n p : Nat) (hpn : p ≤ n) (hp : 0 < p) :
    ∀ c ∈ distributeItems n p, c ≠ [] := by
  intro c hc
  have h := distributeItems_lengths n p hp
  have h2 : c.length ∈ chunkSizes n p := by
    rw [← h]
    exact List.mem_map_of_mem List.length hc
  have h3 := chunkSizes_pos n p hpn hp c.length h2
  intro hnil
  rw [hnil] at h3
  simp at h3

theorem producer_puts_nil (b : Bool) (ids : List Nat) (v : Nat) :
    (Producer.runModel b ids v).2.1 = [] := by
  cases ids with
  | nil => rfl
  | cons id rest => cases b <;> rfl

theorem producer_fault (b : Bool) (id : Nat) (rest : List Nat) (v : Nat) :
    (Producer.runModel b (id :: rest) v).2.2 = some PyError.typeError := by
  cases b <;> rfl

theorem producer_counter_only_first (id : Nat) (rest : List Nat) (v : Nat) :
    (Producer.runModel true (id :: rest) v).1 = v + 1 := by
  rfl

theorem runProducers_puts_nil (chunks : List (List Nat)) (v : Nat) :
    (runProducers chunks v).2.1 = [] := by
  induction chunks generalizing v with
  | nil => rfl
  | cons c rest ih =>
    simp only [runProducers]
    rw [producer_puts_nil true c v] at *
    simp [ih]

theorem run_eval (m : SimulationManager) :
    m.run = ({ m with sequence_value := (runProducers m.source_data_chunks 0).1,
                      queueItems := [], destination_data := [] }, .ok []) := by
  unfold SimulationManager.run
  have h := runProducers_puts_nil m.source_data_chunks 0
  rcases hr : runProducers m.source_data_chunks 0 with ⟨v', puts, errs⟩
  rw [hr] at h
  simp only at h
  subst h
  simp [sortBySequenceNumber]

/-- The allocator model `seqAllocList` hands out the consecutive integers `v, v+1, ...`: the
shared counter allocates strictly increasing values with no duplicate and no
gap, and advances by exactly the number of allocations. -/
theorem seqAllocList_spec (k v : Nat) :
    (seqAllocList k v).1 = List.range' v k ∧ (seqAllocList k v).2 = v + k := by
  induction k generalizing v with
  | zero => exact ⟨rfl, rfl⟩
  | succ k ih =>
    simp only [seqAllocList, List.range']
    obtain ⟨h1, h2⟩ := ih (v + 1)
    rw [h1, h2]
    exact ⟨rfl, by omega⟩

/-! ## The claims -/

/-- C1: the claim says `SimulationManager.run()` returns, for every valid
configuration, a sequence of length `number_of_items` covering the ids
`1..number_of_items`.  The code cannot: `Producer.run` constructs
`WorkItem(item_id, sequence_number=seq_num)` but `models.py`'s `WorkItem`
has no `sequence_number` field, so every producer dies on a `TypeError`
before its first `put`; the fault is swallowed by the thread machinery and
`run()` returns the empty list.  Evaluated here at the configuration of
`test_basic_production_consumption` (50 items, capacity 10): the result is
`[]`, not 50 items. -/
theorem C1_run_returns_no_items :
    ∃ m, SimulationManager.pyInit (.int 50) (.int 10) (.int 1) (.int 1) = .ok m ∧
      m.number_of_items = 50 ∧
      (m.run).2 = .ok ([] : List WorkItem) ∧
      ¬ (([] : List WorkItem).length = m.number_of_items) := by
  refine ⟨_, rfl, rfl, ?_, by decide⟩
  rw [run_eval]

/-- C2: the claim says a `WorkItem` carries both `item_id` and
`sequence_number`.  `models.py` declares only `item_id`: the very
constructor call `Producer.run` makes, `WorkItem(item_id,
sequence_number=seq_num)`, raises `TypeError`, and `repr` shows only the id
(the repository's own `test_workitem_repr` expects
`"WorkItem(id=42, seq=0)"`).  Immutability and value-equality do hold, but
on the single field `item_id` only. -/
theorem C2_workitem_has_no_sequence_number :
    WorkItem.pyInit [1] [("sequence_number", 0)] = .error .typeError ∧
    WorkItem.pyRepr ⟨42⟩ = "WorkItem(id=42)" ∧
    WorkItem.pyRepr ⟨42⟩ ≠ "WorkItem(id=42, seq=0)" ∧
    WorkItem.pySetItemId ⟨5⟩ 10 = (⟨5⟩, .attributeError) ∧
    WorkItem.mk 1 = WorkItem.mk 1 ∧ WorkItem.mk 1 ≠ WorkItem.mk 2 := by
  refine ⟨rfl, rfl, by decide, rfl, rfl, by decide⟩

/-- C10: the claim says a `Producer` built without the shared counter
stamps sequence number 0 on every item it produces.  The line-65 fallback
`seq_num = 0` does run on every iteration (the counter is never advanced:
second conjunct), but the producer crashes with a `TypeError` constructing
its very first `WorkItem` — blocked by the same missing
`sequence_number` field — so it produces nothing at all. -/
theorem C10_fallback_producer_crashes :
    Producer.runModel false [1, 2, 3] 0 = (0, [], some PyError.typeError) ∧
    (∀ ids v, (Producer.runModel false ids v).1 = v) := by
  refine ⟨rfl, ?_⟩
  intro ids v
  cases ids <;> rfl

/-- C6: the claim's allocator contract does hold of the modelled critical
section (first conjunct: `k` allocations from 0 hand out exactly
`0, 1, ..., k-1`), but the claimed consequence — that one `run()` stamps
exactly `{0..number_of_items-1}` — fails: at the configuration of
`test_item_ids_match_sequence` (15 items, capacity 3) the single producer
allocates sequence number 0 and then dies on the `WorkItem` `TypeError`, so
no sequence number is ever stamped on any item and `run()` returns `[]`. -/
theorem C6_no_sequence_number_is_stamped :
    (seqAllocList 15 0).1 = List.range 15 ∧
    (∃ m, SimulationManager.pyInit (.int 15) (.int 3) (.int 1) (.int 1) = .ok m ∧
      m.source_data_chunks = [List.range' 1 15] ∧
      Producer.runModel true (List.range' 1 15) 0 = (1, [], some PyError.typeError) ∧
      (m.run).2 = .ok ([] : List WorkItem)) := by
  refine ⟨by decide, _, rfl, by decide, by decide, ?_⟩
  rw [run_eval]

/-- C3 counterexample: the claim says an unhandled worker fault is captured
and re-raised by `run()`.  At the valid configuration `(1, 1, 1, 1)` the
(single) producer faults with a `TypeError`, yet `run()` returns normally
with `.ok []` — nothing is captured, nothing is re-raised. -/
theorem C3_counterexample_fault_not_reraised :
    ∃ m, SimulationManager.pyInit (.int 1) (.int 1) (.int 1) (.int 1) = .ok m ∧
      m.source_data_chunks = [[1]] ∧
      (Producer.runModel true [1] 0).2.2 = some PyError.typeError ∧
      (m.run).2 = .ok ([] : List WorkItem) := by
  refine ⟨_, rfl, by decide, rfl, ?_⟩
  rw [run_eval]

/-- C3 amended: an unhandled fault inside a producer body terminates that
thread silently — `Producer.run` has no handler and `SimulationManager.run`
joins the thread and never inspects its outcome — so `run()` neither
captures nor re-raises the fault and returns its (empty) aggregate as if
nothing failed.  Stated for every manager whose chunk list contains a
non-empty chunk: that producer faults, and `run()` still returns `.ok`. -/
theorem C3_worker_faults_are_swallowed (m : SimulationManager)
    (chunk : List Nat) (v : Nat)
    (hm : chunk ∈ m.source_data_chunks) (hne : chunk ≠ []) :
    (Producer.runModel true chunk v).2.2 = some PyError.typeError ∧
    (m.run).2 = .ok ([] : List WorkItem) := by
  constructor
  · cases chunk with
    | nil => exact absurd rfl hne
    | cons a r => exact producer_fault true a r v
  · rw [run_eval]

theorem C3_witness :
    (Producer.runModel true [1, 2] 0).2.2 = some PyError.typeError ∧
    (SimulationManager.run
      { number_of_items := 2, queue_capacity := 2, num_producers := 1,
        num_consumers := 1, source_data_chunks := [[1, 2]],
        sequence_value := 0, queueItems := [], destination_data := [] }).2
      = .ok ([] : List WorkItem) :=
  C3_worker_faults_are_swallowed _ [1, 2] 0 (List.mem_cons_self _ _) (by decide)

/-- C4: `SimulationManager.__init__` validation.  Construction succeeds
exactly when all four arguments are integers greater than zero; a
non-integer argument raises `TypeError`; integer arguments with one of them
`≤ 0` (in particular `queue_capacity=0` and `number_of_items=0`) raise
`ValueError`.  In the error cases the constructor returns no manager at all
(first conjunct, right-to-left), so no partial state exists and no thread
can ever have been started. -/
theorem C4_constructor_validation (ni qc np nc : PyVal) :
    ((∃ m, SimulationManager.pyInit ni qc np nc = .ok m) ↔
      (ni.isInt ∧ 0 < ni.toInt ∧ qc.isInt ∧ 0 < qc.toInt ∧
       np.isInt ∧ 0 < np.toInt ∧ nc.isInt ∧ 0 < nc.toInt)) ∧
    ((¬ ni.isInt ∨ ¬ qc.isInt ∨ ¬ np.isInt ∨ ¬ nc.isInt) →
      ∃ p, SimulationManager.pyInit ni qc np nc = .error (.typeError p)) ∧
    ((ni.isInt ∧ qc.isInt ∧ np.isInt ∧ nc.isInt) →
      (ni.toInt ≤ 0 ∨ qc.toInt ≤ 0 ∨ np.toInt ≤ 0 ∨ nc.toInt ≤ 0) →
      ∃ p, SimulationManager.pyInit ni qc np nc = .error (.valueError p)) := by
  refine ⟨?_, ?_, ?_⟩
  · unfold SimulationManager.pyInit
    split_ifs with h1 h2 h3 h4 h5 h6 h7 h8
    · refine ⟨fun ⟨m, hm⟩ => absurd hm (by simp), fun hby => ?_⟩
      obtain ⟨a1, a2, a3, a4, a5, a6, a7, a8⟩ := hby
      omega
    · refine ⟨fun ⟨m, hm⟩ => absurd hm (by simp), fun hby => ?_⟩
      obtain ⟨a1, a2, a3, a4, a5, a6, a7, a8⟩ := hby
      omega
    · refine ⟨fun ⟨m, hm⟩ => absurd hm (by simp), fun hby => ?_⟩
      obtain ⟨a1, a2, a3, a4, a5, a6, a7, a8⟩ := hby
      omega
    · refine ⟨fun ⟨m, hm⟩ => absurd hm (by simp), fun hby => ?_⟩
      obtain ⟨a1, a2, a3, a4, a5, a6, a7, a8⟩ := hby
      omega
    · exact ⟨fun _ => ⟨h1, by omega, h2, by omega, h3, by omega, h4, by omega⟩,
        fun _ => ⟨_, rfl⟩⟩
    · exact ⟨fun ⟨m, hm⟩ => absurd hm (by simp),
        fun hby => absurd hby.2.2.2.2.2.2.1 h4⟩
    · exact ⟨fun ⟨m, hm⟩ => absurd hm (by simp),
        fun hby => absurd hby.2.2.2.2.1 h3⟩
    · exact ⟨fun ⟨m, hm⟩ => absurd hm (by simp), fun hby => absurd hby.2.2.1 h2⟩
    · exact ⟨fun ⟨m, hm⟩ => absurd hm (by simp), fun hby => absurd hby.1 h1⟩
  · intro hd
    unfold SimulationManager.pyInit
    split_ifs with h1 h2 h3 h4 h5 h6 h7 h8
    case _ | _ | _ | _ | _ =>
      rcases hd with hd | hd | hd | hd
      exacts [absurd h1 hd, absurd h2 hd, absurd h3 hd, absurd h4 hd]
    all_goals exact ⟨_, rfl⟩
  · rintro ⟨a1, a2, a3, a4⟩ hr
    unfold SimulationManager.pyInit
    split_ifs with h1 h2 h3 h4
    · exact ⟨_, rfl⟩
    · exact ⟨_, rfl⟩
    · exact ⟨_, rfl⟩
    · exact ⟨_, rfl⟩
    · rcases hr with hr | hr | hr | hr <;> omega

theorem C4_witness :
    (∃ m, SimulationManager.pyInit (.int 10) (.int 5) (.int 2) (.int 2) = .ok m) ∧
    (∃ p, SimulationManager.pyInit (.str "x") (.int 5) (.int 2) (.int 2)
        = .error (.typeError p)) ∧
    (∃ p, SimulationManager.pyInit (.int 10) (.int 0) (.int 2) (.int 2)
        = .error (.valueError p)) ∧
    (∃ p, SimulationManager.pyInit (.int 0) (.int 5) (.int 2) (.int 2)
        = .error (.valueError p)) :=
  ⟨(C4_constructor_validation (.int 10) (.int 5) (.int 2) (.int 2)).1.mpr
      (by refine ⟨rfl, by decide, rfl, by decide, rfl, by decide, rfl, by decide⟩),
   (C4_constructor_validation (.str "x") (.int 5) (.int 2) (.int 2)).2.1
      (by left; decide),
   (C4_constructor_validation (.int 10) (.int 0) (.int 2) (.int 2)).2.2
      (by refine ⟨rfl, rfl, rfl, rfl⟩) (by right; left; decide),
   (C4_constructor_validation (.int 0) (.int 5) (.int 2) (.int 2)).2.2
      (by refine ⟨rfl, rfl, rfl, rfl⟩) (by left; decide)⟩

/-- C5 counterexample: the claim requires every producer's slice to be
non-empty for *every* valid configuration.  `(items=2, capacity=1,
producers=3, consumers=1)` passes construction validation, yet the third
producer's slice is empty: `_distribute_items` yields `[[1], [2], []]`. -/
theorem C5_counterexample_empty_slice :
    (∃ m, SimulationManager.pyInit (.int 2) (.int 1) (.int 3) (.int 1) = .ok m ∧
      m.source_data_chunks = [[1], [2], []]) ∧
    [] ∈ [[1], [2], ([] : List Nat)] := by
  exact ⟨⟨_, rfl, rfl⟩, by decide⟩

/-- C5 amended: for every `0 < producers` the partition plan is a list of
exactly `producers` contiguous slices of `[1..items]`, taken in increasing
order with no gaps, overlaps or omissions (their concatenation is exactly
`[1, ..., items]`), whose sizes are `items / producers + 1` for the first
`items % producers` producers and `items / producers` for the rest; every
slice is non-empty *provided* `producers ≤ items` (with more producers than
items the trailing slices are empty). -/
theorem C5_partition_plan (n p : Nat) (hp : 0 < p) :
    (distributeItems n p).flatten = List.range' 1 n ∧
    (distributeItems n p).length = p ∧
    (distributeItems n p).map List.length = chunkSizes n p ∧
    (chunkSizes n p).sum = n ∧
    (p ≤ n → ∀ c ∈ distributeItems n p, c ≠ []) :=
  ⟨distributeItems_flatten n p hp, distributeItems_count n p hp,
   distributeItems_lengths n p hp, chunkSizes_sum n p hp,
   fun hpn => distributeItems_nonempty n p hpn hp⟩

theorem C5_witness :
    distributeItems 10 3 = [[1, 2, 3, 4], [5, 6, 7], [8, 9, 10]] ∧
    (distributeItems 10 3).flatten = List.range' 1 10 ∧
    (∀ c ∈ distributeItems 10 3, c ≠ []) :=
  ⟨by decide, (C5_partition_plan 10 3 (by decide)).1,
   (C5_partition_plan 10 3 (by decide)).2.2.2.2 (by decide)⟩

/-- C9: re-running the same manager.  Both calls return the same result
(`.ok []`, equal a fortiori as `item_id` sequences): `run()` starts by
resetting the mutable state — the result and outcome are insensitive to
whatever `sequence_value`, queue contents and `destination_data` the
manager carried (third conjunct, the model of lines 229-231) — and it
reuses the partition plan unchanged while ending with a drained queue of
the same configured capacity. -/
theorem C9_rerun_same_result (m : SimulationManager) :
    ((m.run).1.run).2 = (m.run).2 ∧
    (m.run).2 = .ok ([] : List WorkItem) ∧
    (∀ v q d, SimulationManager.run
        { m with sequence_value := v, queueItems := q, destination_data := d }
      = m.run) ∧
    (m.run).1.source_data_chunks = m.source_data_chunks ∧
    (m.run).1.queue_capacity = m.queue_capacity ∧
    (m.run).1.queueItems = [] := by
  refine ⟨?_, ?_, ?_, ?_, ?_, ?_⟩
  · simp only [run_eval]
  · simp only [run_eval]
  · intro v q d
    simp only [run_eval]
  · simp only [run_eval]
  · simp only [run_eval]
  · simp only [run_eval]

/-- C7: the shutdown protocol, verified over every interleaving of the
sentinel phase (to which all queue traffic of a run belongs: producers
fault before their first `put`, first conjunct, so nothing — a fortiori no
real item — is enqueued before or after the sentinels).  In every reachable
state: only sentinels are in the queue; exactly
`num_consumers - sentinelsLeft` sentinels have been put, conserved between
queue and consumers; each consumer has taken at most one sentinel.  When
the phase is final, each consumer has consumed exactly one sentinel and
sits at `done` (no further queue operations exist in its program) and the
queue is empty — the state `run()` returns in.  And a non-final reachable
state always has an enabled step: no thread is ever stuck forever, so every
consumer terminates. -/
theorem C7_sentinel_shutdown (cap nc : Nat) (sched : List SentinelPhase.Label)
    (hcap : 0 < cap) :
    (∀ chunk v, (Producer.runModel true chunk v).2.1 = []) ∧
    (∀ e ∈ (SentinelPhase.runPhase cap nc sched).queue, e = none) ∧
    nc = (SentinelPhase.runPhase cap nc sched).sentinelsLeft
        + (SentinelPhase.runPhase cap nc sched).queue.length
        + SentinelPhase.sentTotal (SentinelPhase.runPhase cap nc sched) ∧
    (∀ c ∈ (SentinelPhase.runPhase cap nc sched).consumers,
      c.sentCount ≤ 1 ∧ c.buffer = []) ∧
    (SentinelPhase.Final (SentinelPhase.runPhase cap nc sched) →
      (SentinelPhase.runPhase cap nc sched).queue = [] ∧
      ∀ c ∈ (SentinelPhase.runPhase cap nc sched).consumers,
        c.sentCount = 1 ∧ c.mode = SentinelPhase.Mode.done) ∧
    (¬ SentinelPhase.Final (SentinelPhase.runPhase cap nc sched) →
      ∃ l, SentinelPhase.step (SentinelPhase.runPhase cap nc sched) l
        ≠ SentinelPhase.runPhase cap nc sched) := by
  simp only [SentinelPhase.runPhase]
  obtain ⟨hc, hqlen, hqnone, hclen, hcinv, hcnt, hev⟩ :=
    SentinelPhase.inv_exec cap nc sched
  refine ⟨producer_puts_nil true, hqnone, hcnt, ?_, ?_, ?_⟩
  · intro c hcm
    have h := hcinv c hcm
    exact ⟨SentinelPhase.consInv_sentCount_le c h, h.1⟩
  · rintro ⟨hsl, hdone⟩
    have hone : ∀ c ∈ (SentinelPhase.exec (SentinelPhase.init cap nc)
        sched).consumers, c.sentCount = 1 := by
      intro c hcm
      have h2 := (hcinv c hcm).2
      rw [hdone c hcm] at h2
      exact h2
    have hsum := SentinelPhase.sentCount_sum_of_all_one _ hone
    refine ⟨?_, fun c hcm => ⟨hone c hcm, hdone c hcm⟩⟩
    have hq0 : (SentinelPhase.exec (SentinelPhase.init cap nc)
        sched).queue.length = 0 := by
      simp only [SentinelPhase.sentTotal] at hcnt
      omega
    exact List.length_eq_zero.mp hq0
  · exact SentinelPhase.progress cap nc _ hcap
      (SentinelPhase.inv_exec cap nc sched)

theorem C7_witness :
    SentinelPhase.Final (SentinelPhase.runPhase 1 2
      [.mgrPut, .consGet 0, .consSample 0, .mgrPut, .consGet 1, .consSample 1]) ∧
    (SentinelPhase.runPhase 1 2
      [.mgrPut, .consGet 0, .consSample 0, .mgrPut, .consGet 1,
        .consSample 1]).queue = [] ∧
    (∀ c ∈ (SentinelPhase.runPhase 1 2
        [.mgrPut, .consGet 0, .consSample 0, .mgrPut, .consGet 1,
          .consSample 1]).consumers,
      c.sentCount = 1 ∧ c.mode = SentinelPhase.Mode.done) := by
  have hf : SentinelPhase.Final (SentinelPhase.runPhase 1 2
      [.mgrPut, .consGet 0, .consSample 0, .mgrPut, .consGet 1,
        .consSample 1]) := by decide
  have h := (C7_sentinel_shutdown 1 2
      [.mgrPut, .consGet 0, .consSample 0, .mgrPut, .consGet 1, .consSample 1]
      (by decide)).2.2.2.2.1 hf
  exact ⟨hf, h.1, h.2⟩

/-- C8 counterexample: with capacity 1 and two consumers, a real
interleaving of `run()`'s shutdown (manager puts a sentinel; consumer 0
removes it; manager puts the second sentinel; only now consumer 0 samples
`qsize()`) produces a `terminated` event whose reported before-snapshot is
2 — outside `[0, capacity] = [0, 1]`, because `Consumer.run` derives
`buffer_before = qsize() + 1` from a re-sampled length, not from the length
at `get()` time. -/
theorem C8_counterexample_snapshot_exceeds_capacity :
    (SentinelPhase.runPhase 1 2
        [.mgrPut, .consGet 0, .mgrPut, .consSample 0]).events
      = [{ kind := SentinelPhase.EventKind.terminated, before := 2, after := 1 }] ∧
    ¬ (∀ ev ∈ (SentinelPhase.runPhase 1 2
        [.mgrPut, .consGet 0, .mgrPut, .consSample 0]).events,
        ev.before ≤ (SentinelPhase.runPhase 1 2
          [.mgrPut, .consGet 0, .mgrPut, .consSample 0]).capacity) := by
  exact ⟨by decide, by decide⟩

/-- C8 amended: over every interleaving, every instrumentation event's
*after* snapshot lies in `[0, capacity]` and its derived *before* value is
exactly `after + 1` (hence in `[0, capacity + 1]`, and a consumed or
terminated event never reports the length increasing); no `produced` event
is ever emitted, since every producer faults before its first `put` (second
conjunct) and the produce log line sits after the `put`. -/
theorem C8_event_snapshots (cap nc : Nat) (sched : List SentinelPhase.Label) :
    (∀ ev ∈ (SentinelPhase.runPhase cap nc sched).events,
      ev.after ≤ cap ∧ ev.before = ev.after + 1 ∧ ev.before ≤ cap + 1 ∧
      ev.kind ≠ SentinelPhase.EventKind.produced) ∧
    (∀ b ids v, (Producer.runModel b ids v).2.1 = []) := by
  obtain ⟨hc, hqlen, hqnone, hclen, hcinv, hcnt, hev⟩ :=
    SentinelPhase.inv_exec cap nc sched
  refine ⟨?_, producer_puts_nil⟩
  intro ev hm
  obtain ⟨h1, h2, h3⟩ := hev ev hm
  exact ⟨h1, h2, by omega, h3⟩

theorem C8_witness :
    (⟨SentinelPhase.EventKind.terminated, 1, 0⟩ : SentinelPhase.Event)
      ∈ (SentinelPhase.runPhase 1 1 [.mgrPut, .consGet 0, .consSample 0]).events ∧
    ((0 : Nat) ≤ 1 ∧ (1 : Nat) = 0 + 1 ∧ (1 : Nat) ≤ 1 + 1 ∧
      SentinelPhase.EventKind.terminated ≠ SentinelPhase.EventKind.produced) := by
  have hm : (⟨SentinelPhase.EventKind.terminated, 1, 0⟩ : SentinelPhase.Event)
      ∈ (SentinelPhase.runPhase 1 1
        [.mgrPut, .consGet 0, .consSample 0]).events := by decide
  exact ⟨hm,
    (C8_event_snapshots 1 1 [.mgrPut, .consGet 0, .consSample 0]).1 _ hm⟩
